import Mathlib

/-!
Verification development for the compact-ts utility (src/main.rs).

The program encodes a point in time as a compact token YY-DOY-BASEMIN and
expands such a token back.  The Lean definitions below are a shallow
embedding of the source: pure Rust functions become Lean functions, the
fatal out-of-range-base contract check becomes an Option wrapper (none is
the fatal branch), and fallible operations return Except values carrying
the exact error message strings the source formats.  The host timezone
(chrono Local) is an external dependency of the handlers; it is made an
explicit parameter (a TZ record of the three conversions the source
performs), so the handlers stay pure and deterministic.
-/

namespace CompactTs

/-- A naive (wall-clock) date-time value, represented the way the program
itself consumes it: proleptic Gregorian year, 1-based ordinal day of year,
hour, minute, second.  This mirrors chrono NaiveDateTime restricted to the
fields the program reads (it reads year, ordinal, hour, minute, second and
nothing else). -/
structure NaiveDT where
  year : Int
  doy : Nat
  hour : Nat
  minute : Nat
  second : Nat
deriving DecidableEq, Repr

/-- The Base enum from the source: the two supported numeric bases. -/
inductive Base where
  | B12
  | B36
deriving DecidableEq, Repr

/-- The radix the handlers pass for each Base variant (12 or 36). -/
def Base.num : Base → Nat
  | .B12 => 12
  | .B36 => 36

/-- The digit alphabet CHARSET from to_base_n:
0123456789ABCDEFGHIJKLMNOPQRSTUVWXYZ. -/
def charset : List Char := "0123456789ABCDEFGHIJKLMNOPQRSTUVWXYZ".data

/-- The digit-collecting loop of to_base_n: while n is positive, push
charset[n % base] and divide n by base.  The digits come out
least-significant first, exactly as in the source; the caller reverses.
The first argument is fuel bounding the iteration count (the loop runs at
most n times since n strictly decreases); structural recursion on fuel
keeps the definition kernel-reducible. -/
def toBaseDigitsRev (base : Nat) : Nat → Nat → List Char
  | 0, _ => []
  | fuel + 1, n =>
    if n = 0 then []
    else charset.getD (n % base) '0' :: toBaseDigitsRev base fuel (n / base)

/-- Body of to_base_n after the base-range contract check: zero encodes to
"0", otherwise collect remainder digits and reverse. -/
def toBaseNCore (n base : Nat) : String :=
  if n = 0 then "0"
  else String.mk (toBaseDigitsRev base n n).reverse

/-- to_base_n from the source.  The out-of-range base contract violation
(a fatal stop in the source) is modelled as none; in-range bases return
the encoded string. -/
def to_base_n (n base : Nat) : Option String :=
  if 2 ≤ base ∧ base ≤ 36 then some (toBaseNCore n base) else none

/-- Decimal ASCII digit test. -/
def isDecDigit (c : Char) : Bool := '0' ≤ c && c ≤ '9'

/-- The digit value of a character as computed by char::to_digit before
the radix bound check: decimal digits map to 0-9, letters map
case-insensitively to 10-35, everything else has no value. -/
def digitVal (c : Char) : Option Nat :=
  if '0' ≤ c && c ≤ '9' then some (c.toNat - 48)
  else if 'a' ≤ c && c ≤ 'z' then some (c.toNat - 97 + 10)
  else if 'A' ≤ c && c ≤ 'Z' then some (c.toNat - 65 + 10)
  else none

/-- A character is a valid digit for a radix when its digit value exists
and is below the radix (char::to_digit semantics, case-insensitive). -/
def validDigit (base : Nat) (c : Char) : Bool :=
  match digitVal c with
  | some d => d < base
  | none => false

/-- One leading plus sign is consumed by u32::from_str_radix before digit
parsing (a minus sign is not a sign for an unsigned type and falls through
to digit parsing, where it fails). -/
def stripPlus : List Char → List Char
  | '+' :: rest => rest
  | l => l

/-- The digit-accumulation loop of u32::from_str_radix: each character
must have a digit value below the radix, and every intermediate
accumulator value must fit in a u32 (the source uses checked multiply and
add, failing on the first overflow). -/
def parseDigits (base : Nat) : List Char → Nat → Option Nat
  | [], acc => some acc
  | c :: cs, acc =>
    match digitVal c with
    | none => none
    | some d =>
      if d < base then
        if acc * base + d < 4294967296 then parseDigits base cs (acc * base + d)
        else none
      else none

/-- u32::from_str_radix: strip one optional leading plus sign, require a
nonempty remainder, then fold the digits with overflow checking. -/
def fromStrRadix (s : String) (base : Nat) : Option Nat :=
  match stripPlus s.data with
  | [] => none
  | l => parseDigits base l 0

/-- Decimal rendering of a Nat (Rust Display for unsigned integers),
reusing the base-conversion digit loop at radix 10. -/
def decRepr (n : Nat) : String :=
  if n = 0 then "0" else String.mk (toBaseDigitsRev 10 n n).reverse

/-- The error message from_base_n formats on any parse failure. -/
def invalidDigitMsg (s : String) (base : Nat) : String :=
  "Invalid digit found in \x27" ++ s ++ "\x27 for base " ++ decRepr base

/-- Body of from_base_n after the base-range contract check: parse and map
every failure to the invalid-digit message. -/
def fromBaseNCore (s : String) (base : Nat) : Except String Nat :=
  match fromStrRadix s base with
  | some n => .ok n
  | none => .error (invalidDigitMsg s base)

/-- from_base_n from the source.  As with to_base_n, none models the
fatal out-of-range base contract violation. -/
def from_base_n (s : String) (base : Nat) : Option (Except String Nat) :=
  if 2 ≤ base ∧ base ≤ 36 then some (fromBaseNCore s base) else none

/-- Does pat occur as a prefix of l (character lists). -/
def prefixAt (pat l : List Char) : Bool :=
  match pat, l with
  | [], _ => true
  | _ :: _, [] => false
  | p :: ps, c :: cs => p == c && prefixAt ps cs

/-- Does pat occur as a contiguous substring of l (character lists).  For
ASCII patterns this coincides with Rust str::contains on UTF-8 bytes. -/
def infixAt (pat : List Char) : List Char → Bool
  | [] => prefixAt pat []
  | c :: cs => prefixAt pat (c :: cs) || infixAt pat cs

/-- Substring containment on strings, modelling str::contains with a
string pattern. -/
def strContainsSub (s pat : String) : Bool := infixAt pat.data s.data

/-- The fixed message of validate_format_string. -/
def formatErrMsg : String :=
  "Output format string cannot contain second or sub-second specifiers (%S, %s, %f)."

/-- validate_format_string from the source: reject exactly the format
strings containing one of the three substrings %S, %s, %f. -/
def validate_format_string (format : String) : Except String Unit :=
  if strContainsSub format "%S" || strContainsSub format "%s" || strContainsSub format "%f" then
    .error formatErrMsg
  else
    .ok ()

/-- The character class of the minutes field in the expand search pattern:
the regex is ([0-9A-B]{3}) for base 12 and ([0-9A-Za-z]{3}) for base 36.
The regex \d is modelled as the ASCII decimal digits. -/
def minutesClass (b : Base) (c : Char) : Bool :=
  match b with
  | .B12 => isDecDigit c || c == 'A' || c == 'B'
  | .B36 => isDecDigit c || ('A' ≤ c && c ≤ 'Z') || ('a' ≤ c && c ≤ 'z')

/-- Attempt to match the token pattern (dd)-(ddd)-(xxx) at the head of a
character list, returning the three capture groups on success. -/
def matchTokenAt (b : Base) : List Char → Option (String × String × String)
  | y1 :: y2 :: h1 :: d1 :: d2 :: d3 :: h2 :: m1 :: m2 :: m3 :: _ =>
    if isDecDigit y1 && isDecDigit y2 && h1 == '-' &&
       isDecDigit d1 && isDecDigit d2 && isDecDigit d3 && h2 == '-' &&
       minutesClass b m1 && minutesClass b m2 && minutesClass b m3 then
      some (⟨[y1, y2]⟩, ⟨[d1, d2, d3]⟩, ⟨[m1, m2, m3]⟩)
    else none
  | _ => none

/-- Scan left to right for the first (leftmost) token match, as
Regex::captures does for this fixed-length pattern. -/
def findTokenAux (b : Base) : List Char → Option (String × String × String)
  | [] => none
  | c :: rest =>
    match matchTokenAt b (c :: rest) with
    | some r => some r
    | none => findTokenAux b rest

/-- The token search of the expand handler over an input string. -/
def findToken (b : Base) (s : String) : Option (String × String × String) :=
  findTokenAux b s.data

/-- Fold a list of guaranteed decimal digit characters to a Nat, modelling
str::parse on the regex-guaranteed digit captures. -/
def decDigitsToNat (l : List Char) : Nat :=
  l.foldl (fun a c => a * 10 + (c.toNat - 48)) 0

/-- Gregorian leap year test, as chrono uses for ordinal date validity. -/
def isLeapYear (y : Int) : Bool :=
  y % 4 == 0 && (y % 100 != 0 || y % 400 == 0)

/-- Number of days in a year. -/
def daysInYear (y : Int) : Nat := if isLeapYear y then 366 else 365

/-- NaiveDate::from_yo_opt: an ordinal date is valid when the 1-based day
of year is between 1 and the number of days in the year. -/
def from_yo_opt (y : Int) (d : Nat) : Option (Int × Nat) :=
  if 1 ≤ d ∧ d ≤ daysInYear y then some (y, d) else none

/-- Left-pad a string with zero characters to the given width, the
behaviour of a zero-fill right-aligned width format such as the one the
generate handler applies to the encoded minutes. -/
def padZero (w : Nat) (s : String) : String :=
  if s.length < w then ⟨List.replicate (w - s.length) '0' ++ s.data⟩ else s

/-- The three timezone conversions the handlers obtain from chrono Local
and Utc.  They are environment-provided (local timezone database), so the
embedding takes them as an explicit record:
fromOffset converts a parsed datetime carrying a fixed offset in seconds
to local time, fromUtc converts a datetime interpreted as UTC to local
time, and fromLocalNaive resolves a naive local datetime to an
unambiguous local instant when one exists (Local.from_local_datetime
followed by single). -/
structure TZ where
  fromOffset : NaiveDT → Int → NaiveDT
  fromUtc : NaiveDT → NaiveDT
  fromLocalNaive : NaiveDT → Option NaiveDT

/-- A trivial timezone in which local time coincides with UTC and every
naive datetime resolves unambiguously; used to instantiate theorems at
concrete inputs. -/
def idTZ : TZ where
  fromOffset := fun n _ => n
  fromUtc := fun n => n
  fromLocalNaive := fun n => some n

/-- Month lengths for a (leap or common) year. -/
def monthDays (leap : Bool) : List Nat :=
  [31, if leap then 29 else 28, 31, 30, 31, 30, 31, 31, 30, 31, 30, 31]

/-- Days strictly before the given 1-based month. -/
def daysBeforeMonth (leap : Bool) (mo : Nat) : Nat :=
  ((monthDays leap).take (mo - 1)).foldl (fun a x => a + x) 0

/-- Build a NaiveDT from civil fields with the validity checks chrono
performs when parsing: month and day must exist in the calendar, hour
below 24, minute and second below 60. -/
def mkCivil (y mo da h mi s : Nat) : Option NaiveDT :=
  if 1 ≤ mo ∧ mo ≤ 12 ∧ 1 ≤ da ∧ da ≤ (monthDays (isLeapYear (y : Int))).getD (mo - 1) 0 ∧
     h ≤ 23 ∧ mi ≤ 59 ∧ s ≤ 59 then
    some ⟨(y : Int), daysBeforeMonth (isLeapYear (y : Int)) mo + da, h, mi, s⟩
  else none

/-- Parse two decimal digit characters. -/
def d2 (a b : Char) : Option Nat :=
  if isDecDigit a && isDecDigit b then some ((a.toNat - 48) * 10 + (b.toNat - 48)) else none

/-- Parse four decimal digit characters. -/
def d4 (a b c d : Char) : Option Nat :=
  if isDecDigit a && isDecDigit b && isDecDigit c && isDecDigit d then
    some (((a.toNat - 48) * 10 + (b.toNat - 48)) * 100 + (c.toNat - 48) * 10 + (d.toNat - 48))
  else none

/-- Drop a maximal run of decimal digits. -/
def dropDigits : List Char → List Char
  | [] => []
  | c :: rest => if isDecDigit c then dropDigits rest else c :: rest

/-- Consume an optional RFC 3339 fractional-seconds part: a dot must be
followed by at least one digit; without a dot the input is unchanged.
The fractional value itself is discarded (the program only ever reads
whole-second fields). -/
def parseFrac : List Char → Option (List Char)
  | '.' :: rest =>
    match rest with
    | c :: _ => if isDecDigit c then some (dropDigits rest) else none
    | [] => none
  | l => some l

/-- RFC 3339 date-time separator: chrono accepts T, t or a space. -/
def sepOk (c : Char) : Bool := c == 'T' || c == 't' || c == ' '

/-- An RFC 3339 trailing offset: Z (or z) for UTC, or a signed HH:MM
offset in seconds.  Must consume the rest of the input. -/
def parseOffRfc : List Char → Option Int
  | ['Z'] => some 0
  | ['z'] => some 0
  | [sg, h1, h2, ':', m1, m2] => do
    let sn : Int ← if sg == '+' then some 1 else if sg == '-' then some (-1) else none
    let h ← d2 h1 h2
    let m ← d2 m1 m2
    if h ≤ 23 && m ≤ 59 then some (sn * ((h * 3600 + m * 60 : Nat) : Int)) else none
  | _ => none

/-- A chrono %z numeric offset: a sign, two hour digits, an optional
colon, two minute digits.  Must consume the rest of the input. -/
def parseOffZ : List Char → Option Int
  | [sg, h1, h2, ':', m1, m2] => do
    let sn : Int ← if sg == '+' then some 1 else if sg == '-' then some (-1) else none
    let h ← d2 h1 h2
    let m ← d2 m1 m2
    if h ≤ 23 && m ≤ 59 then some (sn * ((h * 3600 + m * 60 : Nat) : Int)) else none
  | [sg, h1, h2, m1, m2] => do
    let sn : Int ← if sg == '+' then some 1 else if sg == '-' then some (-1) else none
    let h ← d2 h1 h2
    let m ← d2 m1 m2
    if h ≤ 23 && m ≤ 59 then some (sn * ((h * 3600 + m * 60 : Nat) : Int)) else none
  | _ => none

/-- Attempt 1: DateTime::parse_from_rfc3339, for example
2025-06-30T22:42:05Z.  Hyphenated date, colon-separated time with
seconds, optional fraction, then Z or a signed colon offset. -/
def attempt1 (l : List Char) : Option (NaiveDT × Int) :=
  match l with
  | y1 :: y2 :: y3 :: y4 :: '-' :: mo1 :: mo2 :: '-' :: da1 :: da2 :: sp ::
    h1 :: h2 :: ':' :: mi1 :: mi2 :: ':' :: s1 :: s2 :: rest => do
    if sepOk sp then
      let y ← d4 y1 y2 y3 y4
      let mo ← d2 mo1 mo2
      let da ← d2 da1 da2
      let h ← d2 h1 h2
      let mi ← d2 mi1 mi2
      let s ← d2 s1 s2
      let rest2 ← parseFrac rest
      let off ← parseOffRfc rest2
      let ndt ← mkCivil y mo da h mi s
      some (ndt, off)
    else none
  | _ => none

/-- Attempt 2: format %Y-%m-%dT%H:%M%z, for example
2025-06-28T20:28+02:00. -/
def attempt2 (l : List Char) : Option (NaiveDT × Int) :=
  match l with
  | y1 :: y2 :: y3 :: y4 :: '-' :: mo1 :: mo2 :: '-' :: da1 :: da2 :: 'T' ::
    h1 :: h2 :: ':' :: mi1 :: mi2 :: rest => do
    let y ← d4 y1 y2 y3 y4
    let mo ← d2 mo1 mo2
    let da ← d2 da1 da2
    let h ← d2 h1 h2
    let mi ← d2 mi1 mi2
    let off ← parseOffZ rest
    let ndt ← mkCivil y mo da h mi 0
    some (ndt, off)
  | _ => none

/-- Attempt 3: format %Y%m%dT%H:%M%z, for example 20250628T20:28+02:00. -/
def attempt3 (l : List Char) : Option (NaiveDT × Int) :=
  match l with
  | y1 :: y2 :: y3 :: y4 :: mo1 :: mo2 :: da1 :: da2 :: 'T' ::
    h1 :: h2 :: ':' :: mi1 :: mi2 :: rest => do
    let y ← d4 y1 y2 y3 y4
    let mo ← d2 mo1 mo2
    let da ← d2 da1 da2
    let h ← d2 h1 h2
    let mi ← d2 mi1 mi2
    let off ← parseOffZ rest
    let ndt ← mkCivil y mo da h mi 0
    some (ndt, off)
  | _ => none

/-- Attempt 4: format %Y%m%dT%H%M%SZ with a literal Z, for example
20250630T224205Z; the result is interpreted as UTC. -/
def attempt4 (l : List Char) : Option NaiveDT :=
  match l with
  | [y1, y2, y3, y4, mo1, mo2, da1, da2, 'T', h1, h2, mi1, mi2, s1, s2, 'Z'] => do
    let y ← d4 y1 y2 y3 y4
    let mo ← d2 mo1 mo2
    let da ← d2 da1 da2
    let h ← d2 h1 h2
    let mi ← d2 mi1 mi2
    let s ← d2 s1 s2
    mkCivil y mo da h mi s
  | _ => none

/-- Attempt 5: naive format %Y-%m-%dT%H:%M:%S. -/
def attempt5 (l : List Char) : Option NaiveDT :=
  match l with
  | [y1, y2, y3, y4, '-', mo1, mo2, '-', da1, da2, 'T', h1, h2, ':', mi1, mi2, ':', s1, s2] => do
    let y ← d4 y1 y2 y3 y4
    let mo ← d2 mo1 mo2
    let da ← d2 da1 da2
    let h ← d2 h1 h2
    let mi ← d2 mi1 mi2
    let s ← d2 s1 s2
    mkCivil y mo da h mi s
  | _ => none

/-- Attempt 6: naive format %Y-%m-%dT%H:%M. -/
def attempt6 (l : List Char) : Option NaiveDT :=
  match l with
  | [y1, y2, y3, y4, '-', mo1, mo2, '-', da1, da2, 'T', h1, h2, ':', mi1, mi2] => do
    let y ← d4 y1 y2 y3 y4
    let mo ← d2 mo1 mo2
    let da ← d2 da1 da2
    let h ← d2 h1 h2
    let mi ← d2 mi1 mi2
    mkCivil y mo da h mi 0
  | _ => none

/-- Attempt 7: naive format %Y-%m-%dT%H%M. -/
def attempt7 (l : List Char) : Option NaiveDT :=
  match l with
  | [y1, y2, y3, y4, '-', mo1, mo2, '-', da1, da2, 'T', h1, h2, mi1, mi2] => do
    let y ← d4 y1 y2 y3 y4
    let mo ← d2 mo1 mo2
    let da ← d2 da1 da2
    let h ← d2 h1 h2
    let mi ← d2 mi1 mi2
    mkCivil y mo da h mi 0
  | _ => none

/-- Attempt 8: naive format %Y%m%dT%H:%M. -/
def attempt8 (l : List Char) : Option NaiveDT :=
  match l with
  | [y1, y2, y3, y4, mo1, mo2, da1, da2, 'T', h1, h2, ':', mi1, mi2] => do
    let y ← d4 y1 y2 y3 y4
    let mo ← d2 mo1 mo2
    let da ← d2 da1 da2
    let h ← d2 h1 h2
    let mi ← d2 mi1 mi2
    mkCivil y mo da h mi 0
  | _ => none

/-- Attempt 9: naive format %Y%m%dT%H%M. -/
def attempt9 (l : List Char) : Option NaiveDT :=
  match l with
  | [y1, y2, y3, y4, mo1, mo2, da1, da2, 'T', h1, h2, mi1, mi2] => do
    let y ← d4 y1 y2 y3 y4
    let mo ← d2 mo1 mo2
    let da ← d2 da1 da2
    let h ← d2 h1 h2
    let mi ← d2 mi1 mi2
    mkCivil y mo da h mi 0
  | _ => none

/-- Attempt 10: date-only format %Y-%m-%d; time defaults to midnight. -/
def attempt10 (l : List Char) : Option NaiveDT :=
  match l with
  | [y1, y2, y3, y4, '-', mo1, mo2, '-', da1, da2] => do
    let y ← d4 y1 y2 y3 y4
    let mo ← d2 mo1 mo2
    let da ← d2 da1 da2
    mkCivil y mo da 0 0 0
  | _ => none

/-- Attempt 11: date-only compact format %Y%m%d; time defaults to
midnight. -/
def attempt11 (l : List Char) : Option NaiveDT :=
  match l with
  | [y1, y2, y3, y4, mo1, mo2, da1, da2] => do
    let y ← d4 y1 y2 y3 y4
    let mo ← d2 mo1 mo2
    let da ← d2 da1 da2
    mkCivil y mo da 0 0 0
  | _ => none

/-- The parse-failure message of parse_flexible_timestamp. -/
def parseErrMsg (s : String) : String :=
  "Could not parse \x27" ++ s ++ "\x27 as a valid timestamp."

/-- Resolve a naive datetime in the local zone, failing when the local
interpretation is ambiguous (the to_local helper in the source). -/
def toLocalE (tz : TZ) (ndt : NaiveDT) : Except String NaiveDT :=
  match tz.fromLocalNaive ndt with
  | some l => .ok l
  | none => .error "Ambiguous local time"

/-- parse_flexible_timestamp from the source: try the eleven candidate
formats in order and return the first success; offset-bearing results are
converted from their offset, the compact-with-Z result is converted from
UTC, naive results are resolved in the local zone; if nothing matches,
fail with a message carrying the original input. -/
def parse_flexible_timestamp (tz : TZ) (s : String) : Except String NaiveDT :=
  match attempt1 s.data with
  | some (ndt, off) => .ok (tz.fromOffset ndt off)
  | none =>
  match attempt2 s.data with
  | some (ndt, off) => .ok (tz.fromOffset ndt off)
  | none =>
  match attempt3 s.data with
  | some (ndt, off) => .ok (tz.fromOffset ndt off)
  | none =>
  match attempt4 s.data with
  | some ndt => .ok (tz.fromUtc ndt)
  | none =>
  match attempt5 s.data with
  | some ndt => toLocalE tz ndt
  | none =>
  match attempt6 s.data with
  | some ndt => toLocalE tz ndt
  | none =>
  match attempt7 s.data with
  | some ndt => toLocalE tz ndt
  | none =>
  match attempt8 s.data with
  | some ndt => toLocalE tz ndt
  | none =>
  match attempt9 s.data with
  | some ndt => toLocalE tz ndt
  | none =>
  match attempt10 s.data with
  | some ndt => toLocalE tz ndt
  | none =>
  match attempt11 s.data with
  | some ndt => toLocalE tz ndt
  | none => .error (parseErrMsg s)

/-- The minutes-since-midnight computation of the generate handler:
num_seconds_from_midnight divided by 60 (seconds truncated). -/
def genMinutes (t : NaiveDT) : Nat :=
  (t.hour * 3600 + t.minute * 60 + t.second) / 60

/-- The token the generate handler prints for a source datetime: the
two-digit year (%y, year modulo 100 zero-padded to 2), the three-digit
day of year (%j, zero-padded to 3), and the encoded minutes value
zero-padded on the left to width 3.  The %y model follows the nonnegative
year behaviour of the source formatter. -/
def generateToken (t : NaiveDT) (b : Base) : String :=
  padZero 2 (decRepr (t.year % 100).toNat) ++ "-" ++
  padZero 3 (decRepr t.doy) ++ "-" ++
  padZero 3 (toBaseNCore (genMinutes t) b.num)

/-- handle_generate_command: resolve the source datetime (the parsed
--from string, or the injected current local time) and print the token.
The base-range guard of to_base_n holds because only 12 and 36 are ever
passed, so the encoding core is total here. -/
def handle_generate_command (tz : TZ) (now : NaiveDT) (fromStr : Option String)
    (b : Base) : Except String String :=
  match fromStr with
  | some s => (parse_flexible_timestamp tz s).map (fun t => generateToken t b)
  | none => .ok (generateToken now b)

/-- The distinct failure exits of the expand handler, each carrying the
exact message string the source formats at that return site. -/
inductive ExpandErr where
  | formatErr (msg : String)
  | noToken (msg : String)
  | digitErr (msg : String)
  | minutesErr (msg : String)
  | doyErr (msg : String)
  | ambiguous (msg : String)
deriving DecidableEq, Repr

/-- The no-token message of the expand handler. -/
def noTokenMsg (input : String) : String :=
  "No compact timestamp found in \"" ++ input ++ "\"."

/-- The invalid-minutes message of the expand handler, naming the raw
matched field and its decoded decimal value. -/
def invalidMinutesMsg (raw : String) (m : Nat) : String :=
  "Invalid minutes value \x27" ++ raw ++ "\x27 (" ++ decRepr m ++
  " decimal), must be less than 1440."

/-- The invalid-day-of-year message of the expand handler. -/
def invalidDoyMsg (doy : Nat) : String :=
  "Invalid day of year: " ++ decRepr doy ++ "."

/-- handle_expand_command up to the datetime it formats: validate the
format template, find the leftmost token, decode the fields, validate
minutes then the ordinal date, build the naive datetime and resolve it in
the local zone.  The resolved local datetime (whose wall-clock fields are
what the final formatting renders) is returned.  The from_base_n
base-range guard holds because only 12 and 36 are passed, so the decoding
core is used directly. -/
def handle_expand_command (tz : TZ) (input : String) (b : Base) (fmt : String) :
    Except ExpandErr NaiveDT :=
  match validate_format_string fmt with
  | .error e => .error (.formatErr e)
  | .ok _ =>
    match findToken b input with
    | none => .error (.noToken (noTokenMsg input))
    | some (yy, doyS, bm) =>
      let year : Int := 2000 + (decDigitsToNat yy.data : Int)
      let doy : Nat := decDigitsToNat doyS.data
      match fromBaseNCore bm b.num with
      | .error e => .error (.digitErr e)
      | .ok m =>
        if 1440 ≤ m then .error (.minutesErr (invalidMinutesMsg bm m))
        else
          match from_yo_opt year doy with
          | none => .error (.doyErr (invalidDoyMsg doy))
          | some _ =>
            match tz.fromLocalNaive ⟨year, doy, m / 60, m % 60, 0⟩ with
            | none => .error (.ambiguous "Ambiguous local time")
            | some localdt => .ok localdt

/-- Balanced bounded check: decide a Bool predicate on the interval
[lo, lo + len) by splitting it in half, so that kernel evaluation uses
only logarithmic stack depth.  The first argument is fuel for the
splitting recursion; when it runs out with a nonempty interval the check
conservatively fails. -/
def ballChunk (P : Nat → Bool) : Nat → Nat → Nat → Bool
  | 0, _, len => len == 0
  | fuel + 1, lo, len =>
    if len == 0 then true
    else if len == 1 then P lo
    else ballChunk P fuel lo (len / 2) && ballChunk P fuel (lo + len / 2) (len - len / 2)

/-- The exact value denoted by a digit string in a radix, ignoring
overflow (each invalid character contributes its defaulted value 0; the
function is only meaningful on valid digit strings or under a validity
disjunct). -/
def radixValue (base : Nat) (l : List Char) : Nat :=
  l.foldl (fun a c => a * base + (digitVal c).getD 0) 0

/-- Did the expand handler exit through the invalid-minutes return. -/
def isMinutesErr : Except ExpandErr NaiveDT → Bool
  | .error (.minutesErr _) => true
  | _ => false

/-- Did the expand handler exit through the invalid-day-of-year return. -/
def isDoyErr : Except ExpandErr NaiveDT → Bool
  | .error (.doyErr _) => true
  | _ => false

/-- Declarative shape of a token window: exactly the ten-character
pattern dd-ddd-xxx that the expand regex matches, with the minutes class
depending on the base. -/
def tokenShape (b : Base) (l : List Char) : Bool :=
  match l with
  | [y1, y2, h1, d1, d2, d3, h2, m1, m2, m3] =>
    isDecDigit y1 && isDecDigit y2 && h1 == '-' && isDecDigit d1 && isDecDigit d2 &&
    isDecDigit d3 && h2 == '-' && minutesClass b m1 && minutesClass b m2 && minutesClass b m3
  | _ => false

/-- An element of a format template under the grammar of the claim: a
placeholder specifier (a percent sign followed by one character) or one
literal character.  Literal text is percent-free text. -/
inductive FmtItem where
  | placeholder (c : Char)
  | literal (c : Char)

/-- Characters of one template item. -/
def renderItem : FmtItem → List Char
  | .placeholder c => ['%', c]
  | .literal c => [c]

/-- Characters of a whole template. -/
def renderTemplateChars : List FmtItem → List Char
  | [] => []
  | i :: rest => renderItem i ++ renderTemplateChars rest

/-- The chrono specifier letters at year, month, day, hour or minute
granularity (no seconds and nothing below): years and week years, month
names and numbers, day numbers and weekday names, week numbers, combined
date forms, hours, am/pm markers, minutes, and the hour-minute form. -/
def allowedPlaceholders : List Char :=
  ['Y', 'y', 'C', 'G', 'g', 'm', 'b', 'B', 'h', 'd', 'e', 'j', 'a', 'A', 'w', 'u',
   'U', 'W', 'V', 'D', 'F', 'v', 'H', 'k', 'I', 'l', 'p', 'P', 'M', 'R']

/-- Is a template item within the accepted grammar: an allowed
placeholder or a literal character other than the percent sign. -/
def okItem : FmtItem → Bool
  | .placeholder c => allowedPlaceholders.contains c
  | .literal c => c != '%'

/-- Seconds-level and sub-second-level placeholders of the rendering
library, modelled from the spec (the placeholder syntax is a
rendering-library detail; the semantic requirement is to render year,
month, day, hour, minute and omit seconds and sub-seconds) and the
chrono strftime documentation: %S, %s and %f print seconds, a UNIX
timestamp and fractional seconds, %.f, %.3f, %.6f, %.9f, %3f, %6f and
%9f are the fraction variants, and the combined forms %T (equal to
%H:%M:%S), %X (locale clock time), %r (12-hour clock time), %c (ctime
date and time) and %+ (RFC 3339) all expand to renderings that include
seconds.  The list is not exhaustive (padding-modified forms also
exist); every member renders second-level information. -/
def secondsSpecs : List String :=
  ["%S", "%s", "%f", "%.f", "%.3f", "%.6f", "%.9f", "%3f", "%6f", "%9f",
   "%T", "%X", "%r", "%c", "%+"]

/-- No percent sign in the list is immediately followed by S, s or f. -/
def noBadPercent : List Char → Bool
  | [] => true
  | [_] => true
  | a :: b :: rest =>
    !(a == '%' && (b == 'S' || b == 's' || b == 'f')) && noBadPercent (b :: rest)

/-- A point in time truncated to minute precision (seconds dropped),
which is what the expand handler reconstructs. -/
def truncMin (t : NaiveDT) : NaiveDT := ⟨t.year, t.doy, t.hour, t.minute, 0⟩

/-- Decidable equality for Except results, used to evaluate handler
outcomes at concrete inputs. -/
instance {ε α : Type} [DecidableEq ε] [DecidableEq α] : DecidableEq (Except ε α) := fun x y =>
  match x, y with
  | .ok a, .ok b =>
    if h : a = b then isTrue (by rw [h]) else isFalse (by intro hc; cases hc; exact h rfl)
  | .error a, .error b =>
    if h : a = b then isTrue (by rw [h]) else isFalse (by intro hc; cases hc; exact h rfl)
  | .ok _, .error _ => isFalse (by intro hc; cases hc)
  | .error _, .ok _ => isFalse (by intro hc; cases hc)

theorem ballChunk_sound (P : Nat → Bool) :
    ∀ fuel lo len, ballChunk P fuel lo len = true → ∀ i, i < len → P (lo + i) = true := by
  intro fuel
  induction fuel with
  | zero =>
    intro lo len h i hi
    simp only [ballChunk, beq_iff_eq] at h
    omega
  | succ f ih =>
    intro lo len h i hi
    simp only [ballChunk] at h
    by_cases h0 : len = 0
    · omega
    · by_cases h1 : len = 1
      · have hi0 : i = 0 := by omega
        subst hi0
        simp [h0, h1] at h
        simpa using h
      · simp only [beq_iff_eq, h0, h1, if_false, Bool.and_eq_true] at h
        obtain ⟨ha, hb⟩ := h
        by_cases hc : i < len / 2
        · exact ih lo (len / 2) ha i hc
        · have hj : i - len / 2 < len - len / 2 := by omega
          have hr := ih (lo + len / 2) (len - len / 2) hb (i - len / 2) hj
          have heq : lo + len / 2 + (i - len / 2) = lo + i := by omega
          rwa [heq] at hr

set_option maxHeartbeats 2000000 in
theorem minuteProps12 : ∀ n, n < 1440 →
    fromStrRadix (toBaseNCore n 12) 12 = some n ∧
    (toBaseNCore n 12).length ≤ 3 ∧
    padZero 3 (toBaseNCore n 12) =
      ⟨List.replicate (3 - (toBaseNCore n 12).length) '0' ++ (toBaseNCore n 12).data⟩ ∧
    (padZero 3 (toBaseNCore n 12)).length = 3 ∧
    (∀ c ∈ (padZero 3 (toBaseNCore n 12)).data, minutesClass .B12 c = true) ∧
    fromStrRadix (padZero 3 (toBaseNCore n 12)) 12 = some n := by
  intro n hn
  have h := ballChunk_sound
    (fun n => decide (fromStrRadix (toBaseNCore n 12) 12 = some n ∧
      (toBaseNCore n 12).length ≤ 3 ∧
      padZero 3 (toBaseNCore n 12) =
        ⟨List.replicate (3 - (toBaseNCore n 12).length) '0' ++ (toBaseNCore n 12).data⟩ ∧
      (padZero 3 (toBaseNCore n 12)).length = 3 ∧
      (∀ c ∈ (padZero 3 (toBaseNCore n 12)).data, minutesClass .B12 c = true) ∧
      fromStrRadix (padZero 3 (toBaseNCore n 12)) 12 = some n))
    16 0 1440 (by decide) n hn
  simpa using h

set_option maxHeartbeats 2000000 in
theorem minuteProps36 : ∀ n, n < 1440 →
    fromStrRadix (toBaseNCore n 36) 36 = some n ∧
    (toBaseNCore n 36).length ≤ 3 ∧
    padZero 3 (toBaseNCore n 36) =
      ⟨List.replicate (3 - (toBaseNCore n 36).length) '0' ++ (toBaseNCore n 36).data⟩ ∧
    (padZero 3 (toBaseNCore n 36)).length = 3 ∧
    (∀ c ∈ (padZero 3 (toBaseNCore n 36)).data, minutesClass .B36 c = true) ∧
    fromStrRadix (padZero 3 (toBaseNCore n 36)) 36 = some n := by
  intro n hn
  have h := ballChunk_sound
    (fun n => decide (fromStrRadix (toBaseNCore n 36) 36 = some n ∧
      (toBaseNCore n 36).length ≤ 3 ∧
      padZero 3 (toBaseNCore n 36) =
        ⟨List.replicate (3 - (toBaseNCore n 36).length) '0' ++ (toBaseNCore n 36).data⟩ ∧
      (padZero 3 (toBaseNCore n 36)).length = 3 ∧
      (∀ c ∈ (padZero 3 (toBaseNCore n 36)).data, minutesClass .B36 c = true) ∧
      fromStrRadix (padZero 3 (toBaseNCore n 36)) 36 = some n))
    16 0 1440 (by decide) n hn
  simpa using h

set_option maxHeartbeats 2000000 in
theorem decProps3 : ∀ k, k < 1000 →
    (padZero 3 (decRepr k)).data.length = 3 ∧
    (∀ c ∈ (padZero 3 (decRepr k)).data, isDecDigit c = true) ∧
    decDigitsToNat (padZero 3 (decRepr k)).data = k := by
  intro k hk
  have h := ballChunk_sound
    (fun k => decide ((padZero 3 (decRepr k)).data.length = 3 ∧
      (∀ c ∈ (padZero 3 (decRepr k)).data, isDecDigit c = true) ∧
      decDigitsToNat (padZero 3 (decRepr k)).data = k))
    16 0 1000 (by decide) k hk
  simpa using h

set_option maxHeartbeats 2000000 in
theorem decProps2 : ∀ k, k < 100 →
    (padZero 2 (decRepr k)).data.length = 2 ∧
    (∀ c ∈ (padZero 2 (decRepr k)).data, isDecDigit c = true) ∧
    decDigitsToNat (padZero 2 (decRepr k)).data = k := by
  intro k hk
  have h := ballChunk_sound
    (fun k => decide ((padZero 2 (decRepr k)).data.length = 2 ∧
      (∀ c ∈ (padZero 2 (decRepr k)).data, isDecDigit c = true) ∧
      decDigitsToNat (padZero 2 (decRepr k)).data = k))
    16 0 100 (by decide) k hk
  simpa using h

/-- C1: for every integer n in [0, 1440) and every base in 12 or 36, the
base-range guard passes and decoding the encoded string succeeds and
gives back n: from_base_n inverts to_base_n on the minute domain. -/
theorem c1_codec_roundtrip : ∀ (n base : Nat), n < 1440 → (base = 12 ∨ base = 36) →
    to_base_n n base = some (toBaseNCore n base) ∧
    from_base_n (toBaseNCore n base) base = some (Except.ok n) := by
  intro n base hn hb
  rcases hb with h | h <;> subst h
  · have h1 := (minuteProps12 n hn).1
    refine ⟨by norm_num [to_base_n], ?_⟩
    simp only [from_base_n, fromBaseNCore, h1]
    norm_num
  · have h1 := (minuteProps36 n hn).1
    refine ⟨by norm_num [to_base_n], ?_⟩
    simp only [from_base_n, fromBaseNCore, h1]
    norm_num

theorem c1_codec_roundtrip_witness :
    to_base_n 1362 12 = some (toBaseNCore 1362 12) ∧
    from_base_n (toBaseNCore 1362 12) 12 = some (Except.ok 1362) :=
  c1_codec_roundtrip 1362 12 (by decide) (Or.inl rfl)

/-- C9: under the precondition that the base is 12 or 36 (the only values
the handlers supply, as the conjunct about Base.num records), the fatal
out-of-range contract branch of to_base_n and from_base_n is unreachable:
both always return their computed value, and decoding failures are
ordinary Except error values. -/
theorem c9_no_panic : ∀ base : Nat, (base = 12 ∨ base = 36) →
    (∀ n, to_base_n n base = some (toBaseNCore n base)) ∧
    (∀ s, from_base_n s base = some (fromBaseNCore s base)) ∧
    (∀ b : Base, b.num = 12 ∨ b.num = 36) := by
  intro base hb
  refine ⟨?_, ?_, ?_⟩
  · intro n
    rcases hb with h | h <;> subst h <;> norm_num [to_base_n]
  · intro s
    rcases hb with h | h <;> subst h <;> norm_num [from_base_n]
  · intro b
    cases b
    · exact Or.inl rfl
    · exact Or.inr rfl

theorem c9_no_panic_witness :
    to_base_n 1439 12 = some (toBaseNCore 1439 12) ∧
    from_base_n "95C" 12 = some (fromBaseNCore "95C" 12) :=
  ⟨(c9_no_panic 12 (Or.inl rfl)).1 1439, (c9_no_panic 12 (Or.inl rfl)).2.1 "95C"⟩

theorem radixFold_le (base : Nat) (hb : 1 ≤ base) :
    ∀ (l : List Char) (acc : Nat),
      acc ≤ List.foldl (fun a c => a * base + (digitVal c).getD 0) acc l := by
  intro l
  induction l with
  | nil => intro acc; simp
  | cons c cs ih =>
    intro acc
    have h1 : acc ≤ acc * base + (digitVal c).getD 0 := by
      have h2 : acc * 1 ≤ acc * base := Nat.mul_le_mul_left acc hb
      omega
    calc acc ≤ acc * base + (digitVal c).getD 0 := h1
      _ ≤ _ := by simpa using ih (acc * base + (digitVal c).getD 0)

theorem validDigit_true {base : Nat} {c : Char} (h : validDigit base c = true) :
    ∃ d, digitVal c = some d ∧ d < base := by
  unfold validDigit at h
  cases hd : digitVal c with
  | none => rw [hd] at h; simp at h
  | some d =>
    rw [hd] at h
    exact ⟨d, rfl, by simpa using h⟩

theorem parseDigits_some (base : Nat) (hb : 1 ≤ base) :
    ∀ (l : List Char) (acc : Nat),
      l.all (validDigit base) = true →
      List.foldl (fun a c => a * base + (digitVal c).getD 0) acc l < 4294967296 →
      parseDigits base l acc =
        some (List.foldl (fun a c => a * base + (digitVal c).getD 0) acc l) := by
  intro l
  induction l with
  | nil => intro acc _ _; simp [parseDigits]
  | cons c cs ih =>
    intro acc hall hlt
    simp only [List.all_cons, Bool.and_eq_true] at hall
    obtain ⟨hc, hcs⟩ := hall
    obtain ⟨d, hd, hdb⟩ := validDigit_true hc
    simp only [List.foldl_cons, hd, Option.getD_some] at hlt ⊢
    simp only [parseDigits, hd]
    rw [if_pos hdb]
    have hacc : acc * base + d < 4294967296 := by
      have hle := radixFold_le base hb cs (acc * base + d)
      omega
    rw [if_pos hacc]
    exact ih (acc * base + d) hcs hlt

theorem parseDigits_none (base : Nat) (_hb : 1 ≤ base) :
    ∀ (l : List Char) (acc : Nat), acc < 4294967296 →
      (l.all (validDigit base) = false ∨
        4294967296 ≤ List.foldl (fun a c => a * base + (digitVal c).getD 0) acc l) →
      parseDigits base l acc = none := by
  intro l
  induction l with
  | nil =>
    intro acc haccN h
    rcases h with h | h
    · simp at h
    · simp at h; omega
  | cons c cs ih =>
    intro acc haccN h
    cases hd : digitVal c with
    | none => simp [parseDigits, hd]
    | some d =>
      by_cases hdb : d < base
      · by_cases hacc : acc * base + d < 4294967296
        · have hvc : validDigit base c = true := by simp [validDigit, hd, hdb]
          have hnext : cs.all (validDigit base) = false ∨
              4294967296 ≤
                List.foldl (fun a c => a * base + (digitVal c).getD 0) (acc * base + d) cs := by
            rcases h with h | h
            · left
              simpa [List.all_cons, hvc] using h
            · right
              simpa [List.foldl_cons, hd] using h
          simp only [parseDigits, hd]
          rw [if_pos hdb, if_pos hacc]
          exact ih (acc * base + d) hacc hnext
        · simp only [parseDigits, hd]
          rw [if_pos hdb, if_neg hacc]
      · simp only [parseDigits, hd]
        rw [if_neg hdb]

theorem parseDigits_none_iff (base : Nat) (hb : 1 ≤ base) (l : List Char) :
    parseDigits base l 0 = none ↔
      (l.all (validDigit base) = false ∨ 4294967296 ≤ radixValue base l) := by
  constructor
  · intro h
    by_contra hc
    push_neg at hc
    obtain ⟨h1, h2⟩ := hc
    have hall : l.all (validDigit base) = true := by
      cases hb2 : l.all (validDigit base)
      · exact absurd hb2 h1
      · rfl
    have hlt : radixValue base l < 4294967296 := by omega
    have := parseDigits_some base hb l 0 hall (by simpa [radixValue] using hlt)
    rw [h] at this
    exact Option.noConfusion this
  · intro h
    exact parseDigits_none base hb l 0 (by norm_num) (by simpa [radixValue] using h)

theorem fromStrRadix_none_iff (s : String) (base : Nat) (hb : 1 ≤ base) :
    fromStrRadix s base = none ↔
      (stripPlus s.data = [] ∨ (stripPlus s.data).all (validDigit base) = false ∨
        4294967296 ≤ radixValue base (stripPlus s.data)) := by
  cases hsp : stripPlus s.data with
  | nil => simp [fromStrRadix, hsp]
  | cons c l =>
    have hred : fromStrRadix s base = parseDigits base (c :: l) 0 := by
      simp only [fromStrRadix, hsp]
    rw [hred, parseDigits_none_iff base hb (c :: l)]
    simp

/-- C6 counterexample: from_str_radix consumes one leading plus sign, so
the string +1 succeeds in base 12 even though the plus character is not a
valid digit of the base alphabet; the claimed only-if direction fails. -/
theorem c6_counterexample :
    fromBaseNCore "+1" 12 = Except.ok 1 ∧ validDigit 12 '+' = false := by decide

/-- C6 amended: for every string s and base in 12 or 36, from_base_n
(its in-range core) fails, always with the invalid-digit message, if and
only if after stripping one optional leading plus sign the remainder is
empty, contains a character that is not a valid digit for the base
(alphabetic digits case-insensitive), or denotes a value exceeding the
unsigned 32-bit maximum. -/
theorem c6_amended : ∀ (s : String) (base : Nat), (base = 12 ∨ base = 36) →
    ((∃ e, fromBaseNCore s base = .error e) ↔
      (stripPlus s.data = [] ∨ (stripPlus s.data).all (validDigit base) = false ∨
        4294967296 ≤ radixValue base (stripPlus s.data))) ∧
    (∀ e, fromBaseNCore s base = .error e → e = invalidDigitMsg s base) := by
  intro s base hb
  have hb1 : 1 ≤ base := by rcases hb with h | h <;> omega
  have hiff := fromStrRadix_none_iff s base hb1
  constructor
  · rw [← hiff]
    unfold fromBaseNCore
    cases h : fromStrRadix s base <;> simp
  · intro e he
    unfold fromBaseNCore at he
    cases h : fromStrRadix s base <;> rw [h] at he <;> simp_all

theorem c6_amended_witness :
    ((∃ e, fromBaseNCore "95C" 12 = .error e) ↔
      (stripPlus "95C".data = [] ∨ (stripPlus "95C".data).all (validDigit 12) = false ∨
        4294967296 ≤ radixValue 12 (stripPlus "95C".data))) ∧
    (∀ e, fromBaseNCore "95C" 12 = .error e → e = invalidDigitMsg "95C" 12) :=
  c6_amended "95C" 12 (Or.inl rfl)

theorem strData_append (a b : String) : (a ++ b).data = a.data ++ b.data := by
  cases a; cases b; rfl

theorem prefixAt_self_append : ∀ (pat rest : List Char), prefixAt pat (pat ++ rest) = true := by
  intro pat
  induction pat with
  | nil => intro rest; rfl
  | cons p ps ih => intro rest; simp [prefixAt, ih]

theorem infixAt_here : ∀ (pat rest : List Char), infixAt pat (pat ++ rest) = true := by
  intro pat rest
  cases pat with
  | nil =>
    cases rest with
    | nil => rfl
    | cons c cs => simp [infixAt, prefixAt]
  | cons p ps =>
    have h := prefixAt_self_append (p :: ps) rest
    simp only [List.cons_append] at h
    simp [infixAt, h]

theorem infixAt_ext : ∀ (pre pat l : List Char), infixAt pat l = true → infixAt pat (pre ++ l) = true := by
  intro pre pat l h
  induction pre with
  | nil => simpa
  | cons c cs ih => simp [List.cons_append, infixAt, ih]

theorem strContains_parts (s pat : String) (pre post : List Char)
    (h : s.data = pre ++ (pat.data ++ post)) : strContainsSub s pat = true := by
  unfold strContainsSub
  rw [h]
  exact infixAt_ext pre _ _ (infixAt_here pat.data post)

theorem minutesMsg_names_raw (raw : String) (m : Nat) :
    strContainsSub (invalidMinutesMsg raw m) raw = true := by
  refine strContains_parts _ _ ("Invalid minutes value \x27".data)
    (("\x27 (" ++ decRepr m ++ " decimal), must be less than 1440.").data) ?_
  simp [invalidMinutesMsg, strData_append, List.append_assoc]

theorem minutesMsg_names_value (raw : String) (m : Nat) :
    strContainsSub (invalidMinutesMsg raw m) (decRepr m) = true := by
  refine strContains_parts _ _ (("Invalid minutes value \x27" ++ raw ++ "\x27 (").data)
    (" decimal), must be less than 1440.".data) ?_
  simp [invalidMinutesMsg, strData_append, List.append_assoc]

/-- C3: whenever the format template passes validation and the token
search finds a token whose minutes field decodes to m, the expand handler
exits through the invalid-minutes return exactly when m is at least 1440;
that exit carries a message containing both the raw minutes field and its
decoded decimal value; and concretely, expanding 25-181-AAA in base 12
fails this way with decoded value 1570. -/
theorem c3_invalid_minutes :
    (∀ (tz : TZ) (input fmt : String) (b : Base) (yy dy bm : String) (m : Nat),
      validate_format_string fmt = .ok () →
      findToken b input = some (yy, dy, bm) →
      fromStrRadix bm b.num = some m →
      ((isMinutesErr (handle_expand_command tz input b fmt) = true ↔ 1440 ≤ m) ∧
       (1440 ≤ m → handle_expand_command tz input b fmt =
          .error (.minutesErr (invalidMinutesMsg bm m))) ∧
       strContainsSub (invalidMinutesMsg bm m) bm = true ∧
       strContainsSub (invalidMinutesMsg bm m) (decRepr m) = true)) ∧
    handle_expand_command idTZ "25-181-AAA" .B12 "%Y-%m-%dT%H:%M" =
      .error (.minutesErr (invalidMinutesMsg "AAA" 1570)) ∧
    fromStrRadix "AAA" 12 = some 1570 := by
  refine ⟨?_, by decide, by decide⟩
  intro tz input fmt b yy dy bm m hv ht hm
  have hcore : fromBaseNCore bm b.num = .ok m := by
    unfold fromBaseNCore
    rw [hm]
  refine ⟨?_, ?_, minutesMsg_names_raw bm m, minutesMsg_names_value bm m⟩
  · simp only [handle_expand_command, hv, ht, hcore]
    by_cases h14 : 1440 ≤ m
    · simp [h14, isMinutesErr]
    · simp only [h14, if_false]
      constructor
      · intro hbad
        exfalso
        cases hyo : from_yo_opt (2000 + (decDigitsToNat yy.data : Int)) (decDigitsToNat dy.data) with
        | none => rw [hyo] at hbad; simp [isMinutesErr] at hbad
        | some v =>
          rw [hyo] at hbad
          cases hl : tz.fromLocalNaive ⟨2000 + (decDigitsToNat yy.data : Int),
              decDigitsToNat dy.data, m / 60, m % 60, 0⟩ with
          | none => rw [hl] at hbad; simp [isMinutesErr] at hbad
          | some w => rw [hl] at hbad; simp [isMinutesErr] at hbad
      · intro h; exact h.elim
  · intro h14
    simp only [handle_expand_command, hv, ht, hcore]
    simp [h14]

theorem c3_invalid_minutes_witness :
    (isMinutesErr (handle_expand_command idTZ "log-25-181-956.txt" .B12 "%Y-%m-%dT%H:%M") = true ↔
      1440 ≤ 1362) ∧
    (1440 ≤ 1362 → handle_expand_command idTZ "log-25-181-956.txt" .B12 "%Y-%m-%dT%H:%M" =
      .error (.minutesErr (invalidMinutesMsg "956" 1362))) ∧
    strContainsSub (invalidMinutesMsg "956" 1362) "956" = true ∧
    strContainsSub (invalidMinutesMsg "956" 1362) (decRepr 1362) = true :=
  c3_invalid_minutes.1 idTZ "log-25-181-956.txt" "%Y-%m-%dT%H:%M" .B12 "25" "181" "956" 1362
    (by decide) (by decide) (by decide)

/-- C10 counterexample: on input 25-000-AAA in base 12 the matched token
has day-of-year field 000, yet the handler does not exit through the
invalid-day-of-year return: the minutes validation fires first. -/
theorem c10_counterexample :
    findToken .B12 "25-000-AAA" = some ("25", "000", "AAA") ∧
    isDoyErr (handle_expand_command idTZ "25-000-AAA" .B12 "%Y-%m-%dT%H:%M") = false ∧
    handle_expand_command idTZ "25-000-AAA" .B12 "%Y-%m-%dT%H:%M" =
      .error (.minutesErr (invalidMinutesMsg "AAA" 1570)) := by decide

/-- C10 amended: for every input whose matched token has day-of-year
field 000, provided the format template is valid and the minutes field
decodes to a value below 1440, the expand handler fails with the
invalid-day-of-year error (day zero is rejected for every year and both
bases, although it does not exceed the number of days in the year). -/
theorem c10_zero_doy : ∀ (tz : TZ) (input fmt : String) (b : Base) (yy bm : String) (m : Nat),
    validate_format_string fmt = .ok () →
    findToken b input = some (yy, "000", bm) →
    fromStrRadix bm b.num = some m →
    m < 1440 →
    handle_expand_command tz input b fmt = .error (.doyErr (invalidDoyMsg 0)) := by
  intro tz input fmt b yy bm m hv ht hm hlt
  have hcore : fromBaseNCore bm b.num = .ok m := by
    unfold fromBaseNCore
    rw [hm]
  have h000 : decDigitsToNat ("000" : String).data = 0 := by decide
  have hyo : from_yo_opt (2000 + (decDigitsToNat yy.data : Int)) 0 = none := by
    simp [from_yo_opt]
  simp only [handle_expand_command, hv, ht, hcore, h000, hyo]
  rw [if_neg (by omega)]

theorem c10_zero_doy_witness :
    handle_expand_command idTZ "25-000-956" .B12 "%Y-%m-%dT%H:%M" =
      .error (.doyErr (invalidDoyMsg 0)) :=
  c10_zero_doy idTZ "25-000-956" "%Y-%m-%dT%H:%M" .B12 "25" "956" 1362
    (by decide) (by decide) (by decide) (by decide)

/-- C7: for every n below 1440 and both bases, the encoded string has
length at most 3, and padding it for the emitted token is left-padding
with zero characters to exactly width 3; the generate handler embeds
exactly that padded field as the third component of the token. -/
theorem c7_encode_length :
    (∀ n : Nat, n < 1440 → ∀ b : Base,
      (toBaseNCore n b.num).length ≤ 3 ∧
      padZero 3 (toBaseNCore n b.num) =
        ⟨List.replicate (3 - (toBaseNCore n b.num).length) '0' ++ (toBaseNCore n b.num).data⟩ ∧
      (padZero 3 (toBaseNCore n b.num)).length = 3) ∧
    (∀ (t : NaiveDT) (b : Base),
      generateToken t b =
        padZero 2 (decRepr (t.year % 100).toNat) ++ "-" ++ padZero 3 (decRepr t.doy) ++ "-" ++
        padZero 3 (toBaseNCore (genMinutes t) b.num)) := by
  refine ⟨?_, fun t b => rfl⟩
  intro n hn b
  cases b
  · have h := minuteProps12 n hn
    exact ⟨h.2.1, h.2.2.1, h.2.2.2.1⟩
  · have h := minuteProps36 n hn
    exact ⟨h.2.1, h.2.2.1, h.2.2.2.1⟩

theorem c7_encode_length_witness :
    ((toBaseNCore 1439 Base.B12.num).length ≤ 3 ∧
     padZero 3 (toBaseNCore 1439 Base.B12.num) =
       ⟨List.replicate (3 - (toBaseNCore 1439 Base.B12.num).length) '0' ++
         (toBaseNCore 1439 Base.B12.num).data⟩ ∧
     (padZero 3 (toBaseNCore 1439 Base.B12.num)).length = 3) ∧
    generateToken ⟨2025, 181, 22, 42, 5⟩ .B36 =
      padZero 2 (decRepr ((2025 : Int) % 100).toNat) ++ "-" ++ padZero 3 (decRepr 181) ++ "-" ++
      padZero 3 (toBaseNCore (genMinutes ⟨2025, 181, 22, 42, 5⟩) Base.B36.num) :=
  ⟨c7_encode_length.1 1439 (by decide) .B12, c7_encode_length.2 ⟨2025, 181, 22, 42, 5⟩ .B36⟩

theorem matchTokenAt_isSome (b : Base) (l : List Char) :
    (matchTokenAt b l).isSome = tokenShape b (l.take 10) := by
  rcases l with _ | ⟨a1, l⟩
  · rfl
  rcases l with _ | ⟨a2, l⟩
  · rfl
  rcases l with _ | ⟨a3, l⟩
  · rfl
  rcases l with _ | ⟨a4, l⟩
  · rfl
  rcases l with _ | ⟨a5, l⟩
  · rfl
  rcases l with _ | ⟨a6, l⟩
  · rfl
  rcases l with _ | ⟨a7, l⟩
  · rfl
  rcases l with _ | ⟨a8, l⟩
  · rfl
  rcases l with _ | ⟨a9, l⟩
  · rfl
  rcases l with _ | ⟨a10, rest⟩
  · rfl
  simp only [matchTokenAt, tokenShape, List.take]
  split <;> simp_all

theorem findTokenAux_isSome (b : Base) :
    ∀ l : List Char, (findTokenAux b l).isSome = true ↔
      ∃ i, tokenShape b ((l.drop i).take 10) = true := by
  intro l
  induction l with
  | nil =>
    simp only [findTokenAux, Option.isSome_none]
    constructor
    · intro h; exact Bool.noConfusion h
    · rintro ⟨i, hi⟩
      simp [tokenShape] at hi
  | cons c rest ih =>
    cases hm : matchTokenAt b (c :: rest) with
    | some r =>
      constructor
      · intro _
        refine ⟨0, ?_⟩
        have h := matchTokenAt_isSome b (c :: rest)
        rw [hm] at h
        simpa using h.symm
      · intro _
        simp [findTokenAux, hm]
    | none =>
      have hsh : tokenShape b ((c :: rest).take 10) = false := by
        have h := matchTokenAt_isSome b (c :: rest)
        rw [hm] at h
        exact h.symm
      constructor
      · intro h
        have h2 : (findTokenAux b rest).isSome = true := by
          simpa [findTokenAux, hm] using h
        obtain ⟨i, hi⟩ := ih.mp h2
        exact ⟨i + 1, by simpa using hi⟩
      · rintro ⟨i, hi⟩
        cases i with
        | zero =>
          rw [List.drop_zero] at hi
          rw [hsh] at hi
          exact Bool.noConfusion hi
        | succ j =>
          have h2 : (findTokenAux b rest).isSome = true :=
            ih.mpr ⟨j, by simpa using hi⟩
          simpa [findTokenAux, hm] using h2

/-- C4 counterexample: a base-12 token whose minutes field uses a
lowercase letter is not found, although that letter is a valid base-12
digit under case-insensitive decoding: the claimed case-insensitive
search fails for base 12. -/
theorem c4_counterexample :
    handle_expand_command idTZ "25-181-95b" .B12 "%Y-%m-%dT%H:%M" =
      .error (.noToken (noTokenMsg "25-181-95b")) ∧
    validDigit 12 'b' = true := by decide

/-- C4 amended: for every input string, the token search succeeds exactly
when some position of the input starts a ten-character window of shape
DD-DDD-XXX, where D is an ASCII decimal digit and X ranges over the
selected base's regex class: digits and letters of either case for base
36, but only digits and uppercase A or B for base 12 (lowercase letters
are not matched in base 12, as the concrete conjuncts witness). -/
theorem c4_token_search :
    (∀ (b : Base) (s : String),
      (findToken b s).isSome = true ↔ ∃ i, tokenShape b ((s.data.drop i).take 10) = true) ∧
    findToken .B12 "25-181-95b" = none ∧
    findToken .B36 "25-181-95b" = some ("25", "181", "95b") ∧
    minutesClass .B12 'b' = false ∧ minutesClass .B36 'b' = true := by
  refine ⟨?_, by decide, by decide, by decide, by decide⟩
  intro b s
  exact findTokenAux_isSome b s.data

theorem noBad_cons (c : Char) (l : List Char) (hc : c ≠ '%') :
    noBadPercent (c :: l) = noBadPercent l := by
  cases l with
  | nil => rfl
  | cons b rest =>
    have hcb : (c == '%') = false := by simpa using hc
    simp [noBadPercent, hcb]

theorem render_noBad : ∀ items : List FmtItem, (∀ i ∈ items, okItem i = true) →
    noBadPercent (renderTemplateChars items) = true := by
  intro items
  induction items with
  | nil => intro _; rfl
  | cons i rest ih =>
    intro h
    have hi := h i (List.mem_cons_self i rest)
    have hrest := ih (fun j hj => h j (List.mem_cons_of_mem i hj))
    cases i with
    | literal c =>
      have hc : c ≠ '%' := by simpa [okItem] using hi
      show noBadPercent (c :: renderTemplateChars rest) = true
      rw [noBad_cons c _ hc]
      exact hrest
    | placeholder c =>
      have hmem : c ∈ allowedPlaceholders := by simpa [okItem] using hi
      have hall : allowedPlaceholders.all
          (fun c => !(c == 'S' || c == 's' || c == 'f' || c == '%')) = true := by decide
      have hc := List.all_eq_true.mp hall c hmem
      simp only [Bool.not_eq_true', Bool.or_eq_false_iff] at hc
      obtain ⟨⟨hS, hf⟩, hp⟩ := hc
      obtain ⟨hS, hs⟩ := hS
      have hcp : c ≠ '%' := by simpa using hp
      show noBadPercent ('%' :: c :: renderTemplateChars rest) = true
      have h1 : noBadPercent ('%' :: c :: renderTemplateChars rest) =
          (!('%' == '%' && (c == 'S' || c == 's' || c == 'f')) &&
            noBadPercent (c :: renderTemplateChars rest)) := rfl
      rw [h1, hS, hs, hf, noBad_cons c _ hcp, hrest]
      simp

theorem noBad_no_infix : ∀ (l : List Char), noBadPercent l = true →
    ∀ c : Char, (c == 'S' || c == 's' || c == 'f') = true → infixAt ['%', c] l = false := by
  intro l
  induction l with
  | nil => intro _ c _; rfl
  | cons a rest ih =>
    intro h c hc
    have hrest : noBadPercent rest = true := by
      cases rest with
      | nil => rfl
      | cons b r2 =>
        simp only [noBadPercent, Bool.and_eq_true] at h
        exact h.2
    have hinf : infixAt ['%', c] rest = false := ih hrest c hc
    have hpre : prefixAt ['%', c] (a :: rest) = false := by
      cases rest with
      | nil => simp [prefixAt]
      | cons b r2 =>
        by_cases ha : a = '%'
        · subst ha
          simp only [noBadPercent, Bool.and_eq_true, Bool.not_eq_true'] at h
          have hb : (b == 'S' || b == 's' || b == 'f') = false := by simpa using h.1
          by_cases hbc : c = b
          · subst hbc
            rw [hc] at hb
            exact Bool.noConfusion hb
          · have hcb : (c == b) = false := by simpa using hbc
            simp [prefixAt, hcb]
        · have hap : ('%' == a) = false := by
            simpa using fun hx => ha hx.symm
          simp [prefixAt, hap]
    simp [infixAt, hpre, hinf]

/-- C5 counterexample: the template %T is a seconds-level placeholder
(the rendering library expands it to %H:%M:%S), yet
validate_format_string accepts it, because the check is only a
substring test for %S, %s and %f: the claimed rejection of every
seconds-level template fails at this input. -/
theorem c5_counterexample :
    "%T" ∈ secondsSpecs ∧ strContainsSub "%T" "%T" = true ∧
    validate_format_string "%T" = .ok () := by decide

/-- C5 amended: validate_format_string is exactly a substring test for
the three specifiers %S, %s and %f: it fails, always with the fixed
configuration message, precisely on the templates containing one of
those three substrings, and therefore accepts templates containing
other seconds-level placeholders such as %T, %X, %r, %c and %+; it
accepts every template made only of year, month, day, hour or minute
placeholders and percent-free literal text; and the expand handler
performs this check first, reporting it through its distinct
configuration-error exit for every input, before any token search. -/
theorem c5_format_validation :
    (∀ fmt : String,
      validate_format_string fmt = .error formatErrMsg ↔
        (strContainsSub fmt "%S" = true ∨ strContainsSub fmt "%s" = true ∨
          strContainsSub fmt "%f" = true)) ∧
    (∀ fmt : String,
      validate_format_string fmt = .ok () ∨
        validate_format_string fmt = .error formatErrMsg) ∧
    (∀ f ∈ (["%T", "%X", "%r", "%c", "%+"] : List String),
      f ∈ secondsSpecs ∧ validate_format_string f = .ok ()) ∧
    (∀ items : List FmtItem, (∀ i ∈ items, okItem i = true) →
      validate_format_string ⟨renderTemplateChars items⟩ = .ok ()) ∧
    (∀ (tz : TZ) (input fmt : String) (b : Base) (e : String),
      validate_format_string fmt = .error e →
      handle_expand_command tz input b fmt = .error (.formatErr e)) := by
  refine ⟨?_, ?_, by decide, ?_, ?_⟩
  · intro fmt
    unfold validate_format_string
    split
    · next h =>
      exact ⟨fun _ => by simpa [or_assoc] using h, fun _ => rfl⟩
    · next h =>
      constructor
      · intro hc
        exact Except.noConfusion hc
      · intro hd
        exact absurd (by simpa [or_assoc] using hd) h
  · intro fmt
    unfold validate_format_string
    split
    · exact Or.inr rfl
    · exact Or.inl rfl
  · intro items hok
    have hnb := render_noBad items hok
    have hS := noBad_no_infix _ hnb 'S' (by decide)
    have hs := noBad_no_infix _ hnb 's' (by decide)
    have hf := noBad_no_infix _ hnb 'f' (by decide)
    unfold validate_format_string strContainsSub
    have dS : ("%S" : String).data = ['%', 'S'] := rfl
    have ds : ("%s" : String).data = ['%', 's'] := rfl
    have df : ("%f" : String).data = ['%', 'f'] := rfl
    rw [dS, ds, df]
    have dmk : (⟨renderTemplateChars items⟩ : String).data = renderTemplateChars items := rfl
    rw [dmk, hS, hs, hf]
    rfl
  · intro tz input fmt b e hv
    simp only [handle_expand_command, hv]

theorem c5_format_validation_witness :
    (validate_format_string "%H:%M:%S" = .error formatErrMsg ↔
      (strContainsSub "%H:%M:%S" "%S" = true ∨ strContainsSub "%H:%M:%S" "%s" = true ∨
        strContainsSub "%H:%M:%S" "%f" = true)) ∧
    ("%X" ∈ secondsSpecs ∧ validate_format_string "%X" = .ok ()) ∧
    validate_format_string
      ⟨renderTemplateChars [.placeholder 'Y', .literal 'x', .placeholder 'M']⟩ = .ok () ∧
    handle_expand_command idTZ "log-25-181-956.txt" .B12 "%s" =
      .error (.formatErr formatErrMsg) :=
  ⟨c5_format_validation.1 "%H:%M:%S",
   c5_format_validation.2.2.1 "%X" (by decide),
   c5_format_validation.2.2.2.1 [.placeholder 'Y', .literal 'x', .placeholder 'M'] (by decide),
   c5_format_validation.2.2.2.2 idTZ "log-25-181-956.txt" "%s" .B12 formatErrMsg (by decide)⟩

/-- C8: the eleven candidate formats are tried in the listed priority
order.  Concretely, 20250630T224205Z is rejected by the first three
attempts and accepted by the compact-with-Z rule as the UTC instant
2025-06-30 22:42:05 (ordinal day 181), which the parser then converts to
local time; and an input on which all eleven attempts fail yields the
parse-failure error whose message carries the original input. -/
theorem c8_parser_priority :
    (∀ tz : TZ,
      attempt1 ("20250630T224205Z" : String).data = none ∧
      attempt2 ("20250630T224205Z" : String).data = none ∧
      attempt3 ("20250630T224205Z" : String).data = none ∧
      attempt4 ("20250630T224205Z" : String).data = some ⟨2025, 181, 22, 42, 5⟩ ∧
      parse_flexible_timestamp tz "20250630T224205Z" =
        .ok (tz.fromUtc ⟨2025, 181, 22, 42, 5⟩)) ∧
    (∀ (tz : TZ) (s : String),
      attempt1 s.data = none → attempt2 s.data = none → attempt3 s.data = none →
      attempt4 s.data = none → attempt5 s.data = none → attempt6 s.data = none →
      attempt7 s.data = none → attempt8 s.data = none → attempt9 s.data = none →
      attempt10 s.data = none → attempt11 s.data = none →
      parse_flexible_timestamp tz s = .error (parseErrMsg s) ∧
      strContainsSub (parseErrMsg s) s = true) := by
  constructor
  · intro tz
    have h1 : attempt1 ("20250630T224205Z" : String).data = none := by decide
    have h2 : attempt2 ("20250630T224205Z" : String).data = none := by decide
    have h3 : attempt3 ("20250630T224205Z" : String).data = none := by decide
    have h4 : attempt4 ("20250630T224205Z" : String).data = some ⟨2025, 181, 22, 42, 5⟩ := by
      decide
    exact ⟨h1, h2, h3, h4, by simp only [parse_flexible_timestamp, h1, h2, h3, h4]⟩
  · intro tz s a1 a2 a3 a4 a5 a6 a7 a8 a9 a10 a11
    refine ⟨by simp only [parse_flexible_timestamp,
      a1, a2, a3, a4, a5, a6, a7, a8, a9, a10, a11], ?_⟩
    refine strContains_parts _ _ ("Could not parse \x27".data)
      ("\x27 as a valid timestamp.".data) ?_
    simp [parseErrMsg, strData_append, List.append_assoc]

theorem c8_parser_priority_witness :
    parse_flexible_timestamp idTZ "not-a-real-date" = .error (parseErrMsg "not-a-real-date") ∧
    strContainsSub (parseErrMsg "not-a-real-date") "not-a-real-date" = true :=
  c8_parser_priority.2 idTZ "not-a-real-date" (by decide) (by decide) (by decide) (by decide)
    (by decide) (by decide) (by decide) (by decide) (by decide) (by decide) (by decide)

/-- C2 counterexample: the token only carries the year modulo 100, so a
point in time outside 2000-2099 does not round-trip: generating at year
2125 and expanding yields year 2025. -/
theorem c2_counterexample :
    handle_expand_command idTZ (generateToken ⟨2125, 181, 22, 42, 5⟩ .B12) .B12
      "%Y-%m-%dT%H:%M" = .ok ⟨2025, 181, 22, 42, 0⟩ ∧
    (⟨2025, 181, 22, 42, 0⟩ : NaiveDT).year ≠ (⟨2125, 181, 22, 42, 5⟩ : NaiveDT).year :=
  ⟨by decide, by decide⟩

/-- C2 amended: for every point in time t whose year lies in 2000-2099,
whose day of year is valid for that year, with in-range wall-clock
fields, and whose minute-truncated wall clock resolves unambiguously in
the local zone, expanding the token produced by the generate handler for
t (with the same base, under any valid format template) reconstructs t
truncated to minute precision: same year, day of year, hour and minute,
seconds dropped. -/
theorem c2_roundtrip : ∀ (tz : TZ) (t : NaiveDT) (b : Base) (fmt : String),
    validate_format_string fmt = .ok () →
    2000 ≤ t.year → t.year ≤ 2099 →
    1 ≤ t.doy → t.doy ≤ daysInYear t.year →
    t.hour < 24 → t.minute < 60 → t.second < 60 →
    tz.fromLocalNaive (truncMin t) = some (truncMin t) →
    handle_expand_command tz (generateToken t b) b fmt = .ok (truncMin t) := by
  intro tz t b fmt hv hy1 hy2 hd1 hd2 hh hmi hs hres
  have hym : (t.year % 100).toNat < 100 := by omega
  have hYY := decProps2 _ hym
  obtain ⟨a1, a2, hA⟩ := List.length_eq_two.mp hYY.1
  have hdmax : daysInYear t.year ≤ 366 := by
    unfold daysInYear
    split <;> omega
  have hdlt : t.doy < 1000 := by omega
  have hDD := decProps3 t.doy hdlt
  obtain ⟨b1, b2, b3, hB⟩ := List.length_eq_three.mp hDD.1
  have hn : genMinutes t < 1440 := by
    unfold genMinutes
    omega
  have hM : fromStrRadix (padZero 3 (toBaseNCore (genMinutes t) b.num)) b.num =
        some (genMinutes t) ∧
      (padZero 3 (toBaseNCore (genMinutes t) b.num)).data.length = 3 ∧
      (∀ c ∈ (padZero 3 (toBaseNCore (genMinutes t) b.num)).data, minutesClass b c = true) := by
    cases b
    · have h := minuteProps12 _ hn
      exact ⟨h.2.2.2.2.2, h.2.2.2.1, h.2.2.2.2.1⟩
    · have h := minuteProps36 _ hn
      exact ⟨h.2.2.2.2.2, h.2.2.2.1, h.2.2.2.2.1⟩
  obtain ⟨c1, c2, c3, hC⟩ := List.length_eq_three.mp hM.2.1
  have hdash : ("-" : String).data = ['-'] := rfl
  have hdata : (generateToken t b).data =
      [a1, a2, '-', b1, b2, b3, '-', c1, c2, c3] := by
    simp [generateToken, strData_append, hA, hB, hC, hdash]
  have ha1 : isDecDigit a1 = true := hYY.2.1 a1 (by rw [hA]; simp)
  have ha2 : isDecDigit a2 = true := hYY.2.1 a2 (by rw [hA]; simp)
  have hb1 : isDecDigit b1 = true := hDD.2.1 b1 (by rw [hB]; simp)
  have hb2 : isDecDigit b2 = true := hDD.2.1 b2 (by rw [hB]; simp)
  have hb3 : isDecDigit b3 = true := hDD.2.1 b3 (by rw [hB]; simp)
  have hc1 : minutesClass b c1 = true := hM.2.2 c1 (by rw [hC]; simp)
  have hc2 : minutesClass b c2 = true := hM.2.2 c2 (by rw [hC]; simp)
  have hc3 : minutesClass b c3 = true := hM.2.2 c3 (by rw [hC]; simp)
  have hfind : findToken b (generateToken t b) =
      some (⟨[a1, a2]⟩, ⟨[b1, b2, b3]⟩, ⟨[c1, c2, c3]⟩) := by
    unfold findToken
    rw [hdata]
    simp [findTokenAux, matchTokenAt, ha1, ha2, hb1, hb2, hb3, hc1, hc2, hc3]
  have hyval : decDigitsToNat (⟨[a1, a2]⟩ : String).data = (t.year % 100).toNat := by
    have h := hYY.2.2
    rw [hA] at h
    exact h
  have hdval : decDigitsToNat (⟨[b1, b2, b3]⟩ : String).data = t.doy := by
    have h := hDD.2.2
    rw [hB] at h
    exact h
  have hCs : padZero 3 (toBaseNCore (genMinutes t) b.num) = (⟨[c1, c2, c3]⟩ : String) :=
    congrArg String.mk hC
  have hbm : fromBaseNCore (⟨[c1, c2, c3]⟩ : String) b.num = .ok (genMinutes t) := by
    unfold fromBaseNCore
    rw [← hCs, hM.1]
  have hgm : genMinutes t = t.hour * 60 + t.minute := by
    unfold genMinutes
    omega
  have hyear : (2000 : Int) + ((t.year % 100).toNat : Int) = t.year := by omega
  have hyo : from_yo_opt t.year t.doy = some (t.year, t.doy) := by
    simp [from_yo_opt, hd1, hd2]
  have hdiv : genMinutes t / 60 = t.hour := by rw [hgm]; omega
  have hmod : genMinutes t % 60 = t.minute := by rw [hgm]; omega
  have h14 : ¬ (1440 ≤ genMinutes t) := by omega
  simp only [handle_expand_command, hv, hfind, hbm, hyval, hdval]
  rw [if_neg h14, hyear, hyo]
  simp only [hdiv, hmod]
  rw [show (⟨t.year, t.doy, t.hour, t.minute, 0⟩ : NaiveDT) = truncMin t from rfl, hres]

theorem c2_roundtrip_witness :
    handle_expand_command idTZ (generateToken ⟨2025, 181, 22, 42, 5⟩ .B12) .B12
      "%Y-%m-%dT%H:%M" = .ok (truncMin ⟨2025, 181, 22, 42, 5⟩) :=
  c2_roundtrip idTZ ⟨2025, 181, 22, 42, 5⟩ .B12 "%Y-%m-%dT%H:%M" (by decide) (by decide)
    (by decide) (by decide) (by decide) (by decide) (by decide) (by decide) rfl

end CompactTs
